import Mathlib

/-!
Verification development for the analytics reporting job of this repository
(`src/test copy.py`, `src/utils copy.py`).

The Python functions are shallowly embedded as executable Lean definitions:

* numeric values flow through `ℚ` (Python numbers; all inputs exercised by the
  theorems are exactly representable, so binary-float versus rational rounding
  differences never arise at the evaluated points);
* `Option` models Python `None` / absent dictionary keys;
* insertion-ordered Python dicts are modelled as association lists with
  in-place update (`assocUpdate`), mirroring dict assignment semantics;
* Python `round` is round-half-to-even (`pyRoundHalfEven`).

The model classes (`UserActivity`, `UserActivityStore`, `ProjectInfo`,
`ExportInfo`, the enums and the metrics records) are imported by the source
from modules that are not part of the repository snapshot; those minimal
definitions are reconstructed from the specification (see the doc comments
starting with "Modelled from the spec:").
-/

section PythonEmbedding

attribute [local semireducible] Rat.add Rat.sub Rat.mul Rat.inv Rat.ofScientific

/-- Render an optional string the way a Python f-string renders a value that
may be `None`: `None` prints as the literal text "None". -/
def renderOptStr : Option String → String
  | none => "None"
  | some s => s

/-- Python `round` on a number with no digit argument: round to the nearest
integer, ties going to the even integer (banker's rounding). -/
def pyRoundHalfEven (q : ℚ) : ℤ :=
  let f : ℤ := Rat.floor q
  let r : ℚ := q - f
  if r < 1/2 then f
  else if 1/2 < r then f + 1
  else if f % 2 = 0 then f else f + 1

/-- Python `f"{x:.1f}"` for a nonnegative value: one decimal digit, rounding
half to even. -/
def fmt1 (q : ℚ) : String :=
  let t : ℤ := pyRoundHalfEven (q * 10)
  toString (t / 10) ++ "." ++ toString (t % 10)

/-- Python `f"{x:.2f}"` for a nonnegative value: two decimal digits, rounding
half to even. -/
def fmt2 (q : ℚ) : String :=
  let t : ℤ := pyRoundHalfEven (q * 100)
  toString (t / 100) ++ "." ++ (if t % 100 < 10 then "0" ++ toString (t % 100) else toString (t % 100))

/-- Embedding of `utils copy.py::seconds_to_readable_time`.  Python `//` and
`%` on numbers are floor division and the matching remainder, which on `ℚ`
are `⌊q / d⌋` and `q - d * ⌊q / d⌋`. -/
def seconds_to_readable_time (seconds : ℚ) : Option String :=
  if seconds = 0 then none
  else
    let minutes : ℤ := Rat.floor (seconds / 60)
    let hours : ℤ := Rat.floor ((minutes : ℚ) / 60)
    let secs : ℚ := seconds - 60 * (Rat.floor (seconds / 60) : ℚ)
    let mins : ℤ := minutes - 60 * hours
    let t1 : String := if hours > 0 then toString hours ++ "h" else ""
    let t2 : String := t1 ++ (if mins > 0 then toString mins ++ "m" else "")
    let t3 : String :=
      t2 ++ (if secs > 0 ∨ t2 = "" then toString (pyRoundHalfEven secs) ++ "s" else "")
    some t3

/-- Python truthiness of an optional number: `None` and `0` are falsy. -/
def pyFalsy : Option ℚ → Bool
  | none => true
  | some q => q = 0

/-- Embedding of `utils copy.py::format_percentage_change`.  The guard
`if not daily_value or not prev_period_value: return None` fires before the
`prev_period_value == 0` branch, so the latter is kept but unreachable,
exactly as in the source. -/
def format_percentage_change (daily_value prev_period_value : Option ℚ) : Option String :=
  if pyFalsy daily_value || pyFalsy prev_period_value then none
  else
    let d : ℚ := daily_value.getD 0
    let p : ℚ := prev_period_value.getD 0
    if p = 0 then
      if d > 0 then some "(➚100%)"
      else if d < 0 then some "(➘100%)"
      else some "(≈0%)"
    else
      let difference : ℚ := (d - p) / p * 100
      if difference ≥ 1/10 then some ("(➚" ++ fmt1 difference ++ "%)")
      else if difference < 0 then some ("(➘" ++ fmt1 (-difference) ++ "%)")
      else some "(≈0%)"

/-- Embedding of `utils copy.py::format_bytes` on a Python `int` byte count
(the source always converts the field with `int(...)` before calling it). -/
def format_bytes (bytes : ℤ) : Option String :=
  if bytes = 0 then none
  else if bytes ≥ 1024 ^ 4 then some (fmt2 ((bytes : ℚ) / 1024 ^ 4) ++ " TB")
  else if bytes ≥ 1024 ^ 3 then some (fmt2 ((bytes : ℚ) / 1024 ^ 3) ++ " GB")
  else if bytes ≥ 1024 ^ 2 then some (fmt2 ((bytes : ℚ) / 1024 ^ 2) ++ " MB")
  else if bytes ≥ 1024 then some (fmt2 ((bytes : ℚ) / 1024) ++ " KB")
  else some (toString bytes ++ " B")

example : seconds_to_readable_time 90 = some "1m30s" := by decide
example : seconds_to_readable_time 0 = none := by decide
example : seconds_to_readable_time 3661 = some "1h1m1s" := by decide
example : format_percentage_change (some 5) (some 0) = none := by decide
example : format_bytes 10 = some "10 B" := by decide

/-- One decoded element of the `projectFileInfo` list: a Python dict with
`filename` (string or absent) and `filesize` (always passed through
`int(...)` by the source before formatting). -/
structure FileEntry where
  filename : Option String
  filesize : ℤ
  deriving DecidableEq, Repr

/-- The raw `projectFileInfo` value of `event_properties`, together with the
outcome of `json.loads` when the value is a string (the JSON decoder is an
external stdlib collaborator, so its verdict on each string is carried as
data).  `absent` covers a missing key, whose source default is the string
`"[]"` decoding to the empty list. -/
inductive FileInfoRaw where
  | absent : FileInfoRaw
  | strOk : String → List FileEntry → FileInfoRaw
  | strNonList : String → FileInfoRaw
  | strBad : String → FileInfoRaw
  | listVal : List FileEntry → FileInfoRaw
  | otherVal : FileInfoRaw
  deriving DecidableEq, Repr

/-- Rendering of one file entry inside `handle_export_event`:
`f"{file.get('filename')} ({format_bytes(int(file.get('filesize', 0)))})"`. -/
def renderFileEntry (e : FileEntry) : String :=
  renderOptStr e.filename ++ " (" ++ renderOptStr (format_bytes e.filesize) ++ ")"

/-- The `project_files_info` computed by `handle_export_event` (lines
658-678 of `test copy.py`): decode the string if needed, and join the entries
with ", " when the result is a non-empty list; every other outcome (absent
key, decode failure — the caught `json.JSONDecodeError`/`TypeError` —,
non-list value, empty list) leaves the summary `None`. -/
def fileInfoSummary : FileInfoRaw → Option String
  | .absent => none
  | .strBad _ => none
  | .strNonList _ => none
  | .otherVal => none
  | .strOk _ files =>
      if files = [] then none
      else some (String.intercalate ", " (files.map renderFileEntry))
  | .listVal files =>
      if files = [] then none
      else some (String.intercalate ", " (files.map renderFileEntry))

/-- The malformed `projectFileInfo` shapes named by the spec: a string that
fails to decode as JSON, an absent field, or a decoded value that is not a
list. -/
def malformedFileInfo : FileInfoRaw → Bool
  | .absent => true
  | .strBad _ => true
  | .strNonList _ => true
  | .otherVal => true
  | .strOk _ _ => false
  | .listVal _ => false

/-- Modelled from the spec: the event type tags of the `AmplitudeEvents`
enum (a module not present in the repository snapshot).  The three recognized
tags are prompt submission, prompt-suggestion click and export success; every
other tag (including an absent `event_type`) is `otherTag`. -/
inductive EventType where
  | user_submit_prompt : EventType
  | user_click_prompt_suggest : EventType
  | file_export_succeeded : EventType
  | otherTag : String → EventType
  deriving DecidableEq, Repr

/-- The fields of `event_properties` read by `handle_export_event`.
`outputDuration` is a numeric-as-string field in the export; `none` stands
for an absent or empty (falsy) string, `some q` for a string parsing to the
number `q` via `float(...)`. -/
structure EventProps where
  projectId : Option String
  projectName : Option String
  projectFileInfo : FileInfoRaw
  prompt : Option String
  promptSuggest : Option String
  layout : Option String
  exportType : Option String
  outputDuration : Option ℚ
  exportFileName : Option String
  deriving DecidableEq, Repr

/-- One raw export record as consumed by `parse_export_data`.  `amplitude_id`
is `none` when the key is absent (so the `event.get("amplitude_id", index)`
default applies); `event_properties` is taken as present, as it is on every
record the source processes without raising. -/
structure RawEvent where
  data_type : Option String
  user_id : Option String
  amplitude_id : Option ℤ
  event_type : EventType
  event_properties : EventProps
  deriving DecidableEq, Repr

/-- Modelled from the spec: `ExportInfo` (model class not in the snapshot) —
one completed export action, immutable after creation. -/
structure ExportInfo where
  export_layout : Option String
  export_type : Option String
  export_file_name : Option String
  output_duration : Option String
  deriving DecidableEq, Repr

/-- Modelled from the spec: `ProjectInfo` (model class not in the snapshot) —
one project of a user, with append-only `prompts` and `exports` and a
last-write-wins `file_info`.  The field name `projetc_id` keeps the source's
spelling of the constructor keyword argument. -/
structure ProjectInfo where
  projetc_id : Option String
  project_name : Option String
  file_info : Option String
  prompts : List (Option String)
  exports : List ExportInfo
  deriving DecidableEq, Repr

/-- Modelled from the spec: `UserActivity` (model class not in the snapshot) —
an identity key plus an insertion-ordered mapping from project id to
`ProjectInfo`, modelled as an association list. -/
structure UserActivity where
  email : String
  projects : List (Option String × ProjectInfo)
  deriving DecidableEq, Repr

/-- Lookup in an insertion-ordered Python dict modelled as an association
list. -/
def assocLookup {α β : Type} [DecidableEq α] (l : List (α × β)) (k : α) : Option β :=
  match l with
  | [] => none
  | (k', v) :: rest => if k' = k then some v else assocLookup rest k

/-- Assignment `d[k] = v` in an insertion-ordered Python dict: an existing
key keeps its position, a new key is appended. -/
def assocUpdate {α β : Type} [DecidableEq α] (l : List (α × β)) (k : α) (v : β) : List (α × β) :=
  match l with
  | [] => [(k, v)]
  | (k', v') :: rest => if k' = k then (k, v) :: rest else (k', v') :: assocUpdate rest k v

/-- Modelled from the spec: `UserActivity.add_project` — commit a project
into the user's project mapping under its project id. -/
def UserActivity.add_project (ua : UserActivity) (p : ProjectInfo) : UserActivity :=
  { ua with projects := assocUpdate ua.projects p.projetc_id p }

/-- The `ExportInfo` built by the export branch of `handle_export_event`,
including the `outputDuration → seconds_to_readable_time` conversion. -/
def mkExportInfo (props : EventProps) : ExportInfo :=
  { export_layout := props.layout
    export_type := props.exportType
    export_file_name := props.exportFileName
    output_duration :=
      match props.outputDuration with
      | some q => seconds_to_readable_time q
      | none => none }

/-- Embedding of `test copy.py::handle_export_event` (lines 652-736).  The
in-place mutation of an existing project is rendered functionally: the
returned project is the updated one, and the caller commits it back under the
same key via `add_project` (the source's aliasing makes both writes hit the
same object). -/
def handle_export_event (ev : RawEvent) (ua : UserActivity) : Option ProjectInfo :=
  let props := ev.event_properties
  let project_files_info := fileInfoSummary props.projectFileInfo
  if ev.event_type = EventType.user_submit_prompt ∨
     ev.event_type = EventType.user_click_prompt_suggest then
    let prompt :=
      if ev.event_type = EventType.user_submit_prompt then props.prompt
      else props.promptSuggest
    match assocLookup ua.projects props.projectId with
    | some project =>
        some { project with
                 file_info := project_files_info
                 prompts := project.prompts ++ [prompt] }
    | none =>
        some { projetc_id := props.projectId
               project_name := props.projectName
               file_info := project_files_info
               prompts := [prompt]
               exports := [] }
  else if ev.event_type = EventType.file_export_succeeded then
    let export_info := mkExportInfo props
    match assocLookup ua.projects props.projectId with
    | some project =>
        some { project with
                 file_info := project_files_info
                 exports := project.exports ++ [export_info] }
    | none =>
        some { projetc_id := props.projectId
               project_name := props.projectName
               file_info := project_files_info
               prompts := []
               exports := [export_info] }
  else none

/-- The three event type tags that produce a project. -/
def recognizedType : EventType → Bool
  | .user_submit_prompt => true
  | .user_click_prompt_suggest => true
  | .file_export_succeeded => true
  | .otherTag _ => false

/-- The synthesized anonymous identity label
`f'Anonymous (Amplitude ID-{event.get("amplitude_id", index)})'`, where
`index` is the enumeration value supplied by the caller. -/
def anonLabel (ev : RawEvent) (index : ℕ) : String :=
  "Anonymous (Amplitude ID-" ++
    (match ev.amplitude_id with
     | some a => toString a
     | none => toString index) ++ ")"

/-- The identity key of a record in `parse_export_data`:
`event.get("user_id") or f'Anonymous (...)'`, with Python `or` falling
through on a missing or empty (falsy) `user_id`. -/
def identityKey (ev : RawEvent) (index : ℕ) : String :=
  match ev.user_id with
  | some s => if s = "" then anonLabel ev index else s
  | none => anonLabel ev index

/-- Modelled from the spec: the `UserActivityStore` contents — one
insertion-ordered mapping from identity key to `UserActivity`
(`get_activity` returns the stored activity or a fresh empty one that is not
yet stored; `add_activity` commits by identity key; `get_all_activities`
lists the values in first-committed order). -/
abbrev UserStore : Type := List (String × UserActivity)

/-- The body of the record loop of `parse_export_data` (lines 636-648):
skip non-"event" records, compute the identity key, look up (without
storing) the activity, and commit the updated activity only when
`handle_export_event` produced a project. -/
def processRecord (store : UserStore) (index : ℕ) (ev : RawEvent) : UserStore :=
  if ev.data_type ≠ some "event" then store
  else
    let uid := identityKey ev index
    let user_activity := (assocLookup store uid).getD { email := uid, projects := [] }
    match handle_export_event ev user_activity with
    | none => store
    | some project => assocUpdate store uid (user_activity.add_project project)

/-- The record loop over one file's decoded list, with `enumerate(data,
start=index)`; `parse_export_data` starts every file at `index = 1`. -/
def processRecords (store : UserStore) (index : ℕ) : List RawEvent → UserStore
  | [] => store
  | ev :: rest => processRecords (processRecord store index ev) (index + 1) rest

/-- The file loop of `parse_export_data`: each file restarts its
`enumerate(..., start=1)`. -/
def runFiles (store : UserStore) : List (List RawEvent) → UserStore
  | [] => store
  | f :: fs => runFiles (processRecords store 1 f) fs

/-- Embedding of `test copy.py::parse_export_data` (lines 629-649) on the
already-decoded per-file record lists. -/
def parse_export_data (files : List (List RawEvent)) : List UserActivity :=
  (runFiles [] files).map Prod.snd

/-- Modelled from the spec: the record loop with a single 1-based counter
running across all files, following the claim's words "the 1-based position
of the record in the overall input (across all input files)".  Identical to
`processRecords`/`runFiles` except for how the enumeration value is
threaded. -/
def runFilesOverall (store : UserStore) (pos : ℕ) : List (List RawEvent) → UserStore
  | [] => store
  | f :: fs => runFilesOverall (processRecords store pos f) (pos + f.length) fs

/-- The claim's overall-indexed variant of `parse_export_data`. -/
def parse_export_data_overall (files : List (List RawEvent)) : List UserActivity :=
  (runFilesOverall [] 1 files).map Prod.snd

/-- The claim's per-record qualification for an identity to be committed:
the record is tagged "event", its identity key is the given one, and its
event type is recognized. -/
def qualifies (uid : String) (index : ℕ) (ev : RawEvent) : Prop :=
  ev.data_type = some "event" ∧ recognizedType ev.event_type = true ∧
    identityKey ev index = uid

/-- Processing one event at the `UserActivity` level, as the caller of
`handle_export_event` does for a fixed identity: commit the returned project
when there is one. -/
def applyEvent (ua : UserActivity) (ev : RawEvent) : UserActivity :=
  match handle_export_event ev ua with
  | some project => ua.add_project project
  | none => ua

/-- A sequence of events processed through `handle_export_event` for one
user. -/
def applyEvents (ua : UserActivity) (evs : List RawEvent) : UserActivity :=
  evs.foldl applyEvent ua

/-- Every project of the activity is stored under its own project id — true
of every activity the pipeline builds, since `add_project` keys by
`projetc_id`. -/
def KeyConsistent (ua : UserActivity) : Prop :=
  ∀ kp ∈ ua.projects, (Prod.snd kp).projetc_id = Prod.fst kp

/-- The file-info summary of the most recent event that carried file
metadata, the quantity the claim says `file_info` always equals. -/
def lastCarriedSummary (evs : List RawEvent) : Option String :=
  (evs.filterMap (fun ev => fileInfoSummary ev.event_properties.projectFileInfo)).getLast?

/-- Modelled from the spec: the `MetricsName` enum (module not in the
snapshot) — the distinguished duration metric and the four indented export
variants are the only members `build_analytics_message` tests for; all other
members are carried as tags. -/
inductive MetricsName where
  | total_video_duration : MetricsName
  | export_mp4_landscape_with_captions : MetricsName
  | export_mp4_landscape_without_captions : MetricsName
  | export_mp4_vertical_with_captions : MetricsName
  | export_mp4_vertical_without_captions : MetricsName
  | otherName : String → MetricsName
  deriving DecidableEq, Repr

/-- Modelled from the spec: the rendering of a metric name in the message
f-string. -/
def renderMetricsName : MetricsName → String
  | .total_video_duration => "total_video_duration"
  | .export_mp4_landscape_with_captions => "export_mp4_landscape_with_captions"
  | .export_mp4_landscape_without_captions => "export_mp4_landscape_without_captions"
  | .export_mp4_vertical_with_captions => "export_mp4_vertical_with_captions"
  | .export_mp4_vertical_without_captions => "export_mp4_vertical_without_captions"
  | .otherName s => s

/-- Modelled from the spec: a `MetricCategory` enum member, identified by its
`.value` string used in the section header. -/
structure MetricCategory where
  value : String
  deriving DecidableEq, Repr

/-- Modelled from the spec: `MetricsData` — the per-category mapping from
metric name to fetched numeric value, in insertion order.  The values are the
integer counters of the report; an absent upstream result is stored as
`none`. -/
structure MetricsData where
  metrics : List (MetricsName × Option ℤ)
  deriving DecidableEq, Repr

/-- Modelled from the spec: `ReportMetrics` — category to `MetricsData`, in
insertion order. -/
structure ReportMetrics where
  data : List (MetricCategory × MetricsData)
  deriving DecidableEq, Repr

/-- The previous-period value looked up by `build_analytics_message`:
`prev_period_metrics_data.data.get(metric_type)` followed (when the category
is present) by `.metrics.get(metric_name, None)`; both a missing entry and a
stored `None` yield `None`. -/
def prevLookup (prev : ReportMetrics) (cat : MetricCategory) (name : MetricsName) : Option ℤ :=
  match assocLookup prev.data cat with
  | none => none
  | some md => (assocLookup md.metrics name).join

/-- The `compare_str` of `build_analytics_message` (lines 70-74): the fixed
no-previous-data text when the previous value is falsy and not zero (i.e.
`None`), otherwise the `format_percentage_change` result (which may itself be
`None`). -/
def compareStr (prev : ReportMetrics) (cat : MetricCategory) (name : MetricsName)
    (value : Option ℤ) : Option String :=
  let prev_period_value := prevLookup prev cat name
  if prev_period_value = none then some "(No data for previous period)"
  else format_percentage_change (value.map fun n => (n : ℚ))
    (prev_period_value.map fun n => (n : ℚ))

/-- The fragment `build_analytics_message` appends for one metric (lines
51-85).  A falsy, non-zero current value (i.e. `None`) takes the "No data
found" branch — whose source f-string begins with a stray `f` after `>` —
while any integer (zero included) is rendered as a value line; the
distinguished duration metric is first passed through
`seconds_to_readable_time`, and the four export variants double the
indent. -/
def metricLine (prev : ReportMetrics) (cat : MetricCategory) (name : MetricsName)
    (value : Option ℤ) : String :=
  let whitespace := "          "
  match value with
  | none => "\n>f" ++ whitespace ++ "- *" ++ renderMetricsName name ++ ":* No data found"
  | some v =>
      let compare_str := compareStr prev cat name (some v)
      let rendered :=
        if name = MetricsName.total_video_duration then
          renderOptStr (seconds_to_readable_time (v : ℚ))
        else toString v
      let ws2 :=
        if name = MetricsName.export_mp4_landscape_with_captions ∨
           name = MetricsName.export_mp4_landscape_without_captions ∨
           name = MetricsName.export_mp4_vertical_with_captions ∨
           name = MetricsName.export_mp4_vertical_without_captions then
          whitespace ++ whitespace
        else whitespace
      "\n>" ++ ws2 ++ "- *" ++ renderMetricsName name ++ ":* " ++ rendered ++ " " ++
        renderOptStr compare_str

/-- Embedding of `test copy.py::build_analytics_message` (lines 45-86). -/
def build_analytics_message (metrics_data prev_period_metrics_data : ReportMetrics) : String :=
  metrics_data.data.foldl
    (fun str_msg cm =>
      str_msg ++ "\n>*" ++ (Prod.fst cm).value ++ ":*" ++
        (Prod.snd cm).metrics.foldl
          (fun acc nv =>
            acc ++ metricLine prev_period_metrics_data (Prod.fst cm) (Prod.fst nv) (Prod.snd nv))
          "")
    ""

/-- The fixed chunk-size limit `SLACK_MESSAGE_LIMIT` of `test copy.py`. -/
def SLACK_MESSAGE_LIMIT : ℕ := 3000

/-- Index of the last newline in a list of characters, if any — the value of
Python `rfind("\n", ...)` restricted to the slice, shifted to slice-relative
indices. -/
def lastNLIdx : List Char → Option ℕ
  | [] => none
  | c :: cs =>
      match lastNLIdx cs with
      | some j => some (j + 1)
      | none => if c = '\n' then some 0 else none

/-- Length of the next chunk the loop of `handle_send_message_by_thread`
(lines 860-875) cuts from the remaining text `r` (the suffix
`message_str[i:]`).  `end_index = min(i + LIMIT, len)` is below `len`
exactly when `LIMIT < r.length`; only then is the window searched for a
newline, and the boundary moves to just after the last one found. -/
def chunkOne (limit : ℕ) (r : List Char) : ℕ :=
  if limit < r.length then
    match lastNLIdx (r.take limit) with
    | some j => j + 1
    | none => limit
  else r.length

/-- The chunking loop, with explicit fuel (the loop advances by at least one
character per iteration, so `r.length` fuel is enough). -/
def chunksFromGo (limit : ℕ) : ℕ → List Char → List (List Char)
  | 0, _ => []
  | fuel + 1, r =>
      if r.isEmpty then []
      else r.take (chunkOne limit r) :: chunksFromGo limit fuel (r.drop (chunkOne limit r))

/-- All chunks the loop produces for a message under the given limit. -/
def chunksWith (limit : ℕ) (s : List Char) : List (List Char) :=
  chunksFromGo limit s.length s

/-- The chunks `handle_send_message_by_thread` sends for one message string,
at the fixed `SLACK_MESSAGE_LIMIT`. -/
def chunkMessage (s : List Char) : List (List Char) :=
  chunksWith SLACK_MESSAGE_LIMIT s

/-- Start position of chunk `k` inside the original string: the total length
of the preceding chunks. -/
def chunkStart (cs : List (List Char)) (k : ℕ) : ℕ :=
  ((cs.take k).map List.length).sum

/-- The boundary rule of claim C4, read per chunk: whenever the limit-sized
window starting at the chunk's position contains a newline, the chunk ends
immediately after the last one; otherwise it ends at the limit (or at the end
of the string). -/
def claimC4pred (s : List Char) : Prop :=
  (chunkMessage s).flatten = s ∧
  (∀ c ∈ chunkMessage s, c.length ≤ SLACK_MESSAGE_LIMIT) ∧
  (∀ k, (hk : k < (chunkMessage s).length) →
    (chunkMessage s)[k].length =
      match lastNLIdx ((s.drop (chunkStart (chunkMessage s) k)).take SLACK_MESSAGE_LIMIT) with
      | some j => j + 1
      | none => min SLACK_MESSAGE_LIMIT (s.length - chunkStart (chunkMessage s) k))

/-- The rendering of `seconds_to_readable_time` as claim C7 words it: each
component rounded, every segment whose rounded value is zero omitted, except
that the seconds segment stays when hours and minutes were both omitted. -/
def claimC7render (seconds : ℚ) : Option String :=
  if seconds = 0 then none
  else
    let minutes : ℤ := Rat.floor (seconds / 60)
    let hours : ℤ := Rat.floor ((minutes : ℚ) / 60)
    let secs : ℚ := seconds - 60 * (Rat.floor (seconds / 60) : ℚ)
    let mins : ℤ := minutes - 60 * hours
    let hSeg := if hours ≠ 0 then toString hours ++ "h" else ""
    let mSeg := if mins ≠ 0 then toString mins ++ "m" else ""
    let sSeg :=
      if pyRoundHalfEven secs ≠ 0 ∨ (hours = 0 ∧ mins = 0) then
        toString (pyRoundHalfEven secs) ++ "s"
      else ""
    some (hSeg ++ mSeg ++ sSeg)

/-- The amended rendering: segments are kept or dropped by the sign of their
raw (pre-rounding) value — hours and minutes when positive, seconds when the
raw remainder is positive or both other segments were dropped — and the
numeric components are rounded only for display. -/
def amendedC7render (seconds : ℚ) : Option String :=
  if seconds = 0 then none
  else
    let minutes : ℤ := Rat.floor (seconds / 60)
    let hours : ℤ := Rat.floor ((minutes : ℚ) / 60)
    let secs : ℚ := seconds - 60 * (Rat.floor (seconds / 60) : ℚ)
    let mins : ℤ := minutes - 60 * hours
    let hSeg := if 0 < hours then toString hours ++ "h" else ""
    let mSeg := if 0 < mins then toString mins ++ "m" else ""
    let sSeg :=
      if 0 < secs ∨ (¬ 0 < hours ∧ ¬ 0 < mins) then
        toString (pyRoundHalfEven secs) ++ "s"
      else ""
    some (hSeg ++ mSeg ++ sSeg)

/-- The identity key as the amended claim words it: `user_id` when present
and non-empty; otherwise the synthesized anonymous label over
`amplitude_id` when present, else the supplied 1-based position. -/
def specIdentityKey (ev : RawEvent) (pos : ℕ) : String :=
  match ev.user_id with
  | some s =>
      if s ≠ "" then s
      else
        "Anonymous (Amplitude ID-" ++
          (match ev.amplitude_id with
           | some a => toString a
           | none => toString pos) ++ ")"
  | none =>
      "Anonymous (Amplitude ID-" ++
        (match ev.amplitude_id with
         | some a => toString a
         | none => toString pos) ++ ")"

/-- The record step with the claim-worded key selection. -/
def processRecordSpec (store : UserStore) (index : ℕ) (ev : RawEvent) : UserStore :=
  if ev.data_type ≠ some "event" then store
  else
    let uid := specIdentityKey ev index
    let user_activity := (assocLookup store uid).getD { email := uid, projects := [] }
    match handle_export_event ev user_activity with
    | none => store
    | some project => assocUpdate store uid (user_activity.add_project project)

/-- The record loop with the claim-worded key selection. -/
def processRecordsSpec (store : UserStore) (index : ℕ) : List RawEvent → UserStore
  | [] => store
  | ev :: rest => processRecordsSpec (processRecordSpec store index ev) (index + 1) rest

/-- The file loop with the claim-worded key selection, every file starting
its enumeration at 1. -/
def runFilesSpec (store : UserStore) : List (List RawEvent) → UserStore
  | [] => store
  | f :: fs => runFilesSpec (processRecordsSpec store 1 f) fs

/-- The amended claim's description of `parse_export_data`: identity keys
chosen by `specIdentityKey` with 1-based positions restarting per file. -/
def parse_export_data_perFile (files : List (List RawEvent)) : List UserActivity :=
  (runFilesSpec [] files).map Prod.snd

/-- Sample event properties: a prompt submission on project "p1" whose
`projectFileInfo` string fails to decode. -/
def propsBadFileInfo : EventProps :=
  { projectId := some "p1"
    projectName := some "Proj"
    projectFileInfo := FileInfoRaw.strBad "not json"
    prompt := some "hello"
    promptSuggest := none
    layout := none
    exportType := none
    outputDuration := none
    exportFileName := none }

/-- Sample record: a prompt submission by user "u1" with malformed file
info. -/
def evBadFileInfo : RawEvent :=
  { data_type := some "event"
    user_id := some "u1"
    amplitude_id := none
    event_type := EventType.user_submit_prompt
    event_properties := propsBadFileInfo }

/-- Sample empty activity for user "u1". -/
def uaEmptyU1 : UserActivity := { email := "u1", projects := [] }

/-- Sample anonymous prompt record: no `user_id`, no `amplitude_id`. -/
def evAnon : RawEvent :=
  { data_type := some "event"
    user_id := none
    amplitude_id := none
    event_type := EventType.user_submit_prompt
    event_properties :=
      { projectId := some "p"
        projectName := some "P"
        projectFileInfo := FileInfoRaw.absent
        prompt := some "hi"
        promptSuggest := none
        layout := none
        exportType := none
        outputDuration := none
        exportFileName := none } }

/-- Two input files of one anonymous record each: the second record is at
overall position 2 but per-file position 1. -/
def filesTwoAnon : List (List RawEvent) := [[evAnon], [evAnon]]

/-- Event properties for project "p" carrying one file entry of the given
size, with the given prompt. -/
def propsCarrying (sz : ℤ) (txt : String) : EventProps :=
  { projectId := some "p"
    projectName := some "P"
    projectFileInfo := FileInfoRaw.listVal [{ filename := some "a.txt", filesize := sz }]
    prompt := some txt
    promptSuggest := none
    layout := none
    exportType := none
    outputDuration := none
    exportFileName := none }

/-- Event properties for project "p" with no file metadata. -/
def propsNoFile (txt : String) : EventProps :=
  { projectId := some "p"
    projectName := some "P"
    projectFileInfo := FileInfoRaw.absent
    prompt := some txt
    promptSuggest := none
    layout := none
    exportType := none
    outputDuration := none
    exportFileName := none }

/-- A prompt-submission record with the given properties. -/
def mkSubmit (props : EventProps) : RawEvent :=
  { data_type := some "event"
    user_id := some "u"
    amplitude_id := none
    event_type := EventType.user_submit_prompt
    event_properties := props }

/-- Sample empty activity for user "u". -/
def uaEmptyU : UserActivity := { email := "u", projects := [] }

/-- Sample comparison-period metrics: the one metric present has the stored
value 0. -/
def prevWithZero : ReportMetrics :=
  { data := [({ value := "Export" },
              { metrics := [(MetricsName.otherName "total_exports", some 0)] })] }

/-- The C4 counterexample string: a newline followed by 2999 other
characters — exactly one limit-sized window, containing a newline. -/
def nlFirst3000 : List Char := '\n' :: List.replicate 2999 'a'

theorem str_append_ne_empty_right (a b : String) (hb : b.length ≠ 0) : a ++ b ≠ "" := by
  intro h
  have hl : (a ++ b).length = ("" : String).length := congrArg String.length h
  rw [String.length_append] at hl
  have h0 : ("" : String).length = 0 := rfl
  rw [h0] at hl
  omega

theorem str_append_ne_empty_left (a b : String) (ha : a.length ≠ 0) : a ++ b ≠ "" := by
  intro h
  have hl : (a ++ b).length = ("" : String).length := congrArg String.length h
  rw [String.length_append] at hl
  have h0 : ("" : String).length = 0 := rfl
  rw [h0] at hl
  omega

theorem str_append_single_len (a : String) (u : String) (hu : u.length = 1) :
    (a ++ u).length ≠ 0 := by
  rw [String.length_append, hu]
  omega

theorem str_eq_empty_of_length (s : String) (h : s.length = 0) : s = "" := by
  cases s with
  | mk data =>
      cases data with
      | nil => rfl
      | cons c cs => simp [String.length] at h

theorem str_append_eq_empty_iff (a b : String) : a ++ b = "" ↔ a = "" ∧ b = "" := by
  constructor
  · intro h
    have hl : (a ++ b).length = ("" : String).length := congrArg String.length h
    rw [String.length_append] at hl
    have h0 : ("" : String).length = 0 := rfl
    rw [h0] at hl
    exact ⟨str_eq_empty_of_length a (by omega), str_eq_empty_of_length b (by omega)⟩
  · rintro ⟨rfl, rfl⟩
    rfl

/-- C6 counterexample: at the concrete input `(5, 0)` the function returns
the sentinel `None`, not the fixed up-100% marker, because the falsy guard
fires on the zero prior value before the zero-prior branch is reached. -/
theorem format_percentage_change_zero_prior_counterexample :
    format_percentage_change (some 5) (some 0) = none ∧
    format_percentage_change (some 5) (some 0) ≠ some "(➚100%)" := by
  decide

/-- C6 (amended): whenever the prior-period value is exactly zero,
`format_percentage_change` returns the sentinel `None` regardless of the
current value — the marker branch for a zero prior is unreachable. -/
theorem format_percentage_change_zero_prior_sentinel (daily_value : Option ℚ) :
    format_percentage_change daily_value (some 0) = none := by
  have h : pyFalsy (some 0) = true := by decide
  simp [format_percentage_change, h]

/-- C7 counterexample: at 60.25 seconds the code renders "1m0s" (the seconds
segment is kept because the raw remainder 0.25 is positive), while the
claim's rounded-value-zero omission rule renders "1m". -/
theorem seconds_rounded_omission_counterexample :
    seconds_to_readable_time (241 / 4) = some "1m0s" ∧
    claimC7render (241 / 4) = some "1m" ∧
    seconds_to_readable_time (241 / 4) ≠ claimC7render (241 / 4) := by
  decide

/-- C7 (amended): `seconds_to_readable_time` returns the sentinel on a falsy
input and otherwise concatenates the "h"/"m"/"s" segments of the
floor-division decomposition, keeping the hours and minutes segments exactly
when their raw value is positive and the seconds segment exactly when the raw
remainder is positive or both other segments were dropped, each component
rounded only for display; in particular 0 ↦ sentinel, 45 ↦ "45s",
90 ↦ "1m30s", 3661 ↦ "1h1m1s". -/
theorem seconds_to_readable_time_amended :
    (∀ q : ℚ, seconds_to_readable_time q = amendedC7render q) ∧
    seconds_to_readable_time 0 = none ∧
    seconds_to_readable_time 45 = some "45s" ∧
    seconds_to_readable_time 90 = some "1m30s" ∧
    seconds_to_readable_time 3661 = some "1h1m1s" := by
  refine ⟨?_, by decide, by decide, by decide, by decide⟩
  intro q
  by_cases h0 : q = 0
  · simp [seconds_to_readable_time, amendedC7render, h0]
  · simp only [seconds_to_readable_time, amendedC7render, if_neg h0]
    generalize Rat.floor (q / 60) = M
    generalize (q - 60 * (M : ℚ)) = S
    generalize Rat.floor ((M : ℚ) / 60) = H
    generalize (M - 60 * H) = K
    have hne_h : ¬ (("h" : String) = "") := by decide
    have hne_m : ¬ (("m" : String) = "") := by decide
    by_cases h1 : 0 < H <;> by_cases h2 : 0 < K <;> by_cases h3 : 0 < S <;>
      simp [h1, h2, h3, String.append_assoc, str_append_eq_empty_iff, hne_h, hne_m]

theorem malformed_summary_none (fir : FileInfoRaw) (h : malformedFileInfo fir = true) :
    fileInfoSummary fir = none := by
  cases fir <;> first | rfl | simp [malformedFileInfo] at h

/-- C8: for every recognized event whose `projectFileInfo` is malformed
(string failing to decode, absent field, or decoded non-list),
`handle_export_event` still returns a project — the failure is absorbed —
with its file-info summary left `None`, and the prompt or export of the
record is still appended. -/
theorem handle_export_event_malformed (ev : RawEvent) (ua : UserActivity)
    (hrec : recognizedType ev.event_type = true)
    (hmal : malformedFileInfo ev.event_properties.projectFileInfo = true) :
    ∃ p, handle_export_event ev ua = some p ∧ p.file_info = none ∧
      ((ev.event_type = EventType.user_submit_prompt ∨
        ev.event_type = EventType.user_click_prompt_suggest) →
        p.prompts =
          (match assocLookup ua.projects ev.event_properties.projectId with
           | some q => q.prompts
           | none => []) ++
          [if ev.event_type = EventType.user_submit_prompt then ev.event_properties.prompt
           else ev.event_properties.promptSuggest]) ∧
      (ev.event_type = EventType.file_export_succeeded →
        p.exports =
          (match assocLookup ua.projects ev.event_properties.projectId with
           | some q => q.exports
           | none => []) ++ [mkExportInfo ev.event_properties]) := by
  have hs : fileInfoSummary ev.event_properties.projectFileInfo = none :=
    malformed_summary_none _ hmal
  cases hty : ev.event_type with
  | otherTag s => rw [hty] at hrec; simp [recognizedType] at hrec
  | user_submit_prompt =>
      cases hl : assocLookup ua.projects ev.event_properties.projectId with
      | some project =>
          refine ⟨{ project with
                      file_info := none
                      prompts := project.prompts ++ [ev.event_properties.prompt] },
                  ?_, rfl, ?_, ?_⟩
          · simp [handle_export_event, hty, hl, hs]
          · intro _; simp [hty, hl]
          · intro hcontra; exact absurd hcontra (by decide)
      | none =>
          refine ⟨{ projetc_id := ev.event_properties.projectId
                    project_name := ev.event_properties.projectName
                    file_info := none
                    prompts := [ev.event_properties.prompt]
                    exports := [] },
                  ?_, rfl, ?_, ?_⟩
          · simp [handle_export_event, hty, hl, hs]
          · intro _; simp [hty, hl]
          · intro hcontra; exact absurd hcontra (by decide)
  | user_click_prompt_suggest =>
      cases hl : assocLookup ua.projects ev.event_properties.projectId with
      | some project =>
          refine ⟨{ project with
                      file_info := none
                      prompts := project.prompts ++ [ev.event_properties.promptSuggest] },
                  ?_, rfl, ?_, ?_⟩
          · simp [handle_export_event, hty, hl, hs]
          · intro _; simp [hty, hl]
          · intro hcontra; exact absurd hcontra (by decide)
      | none =>
          refine ⟨{ projetc_id := ev.event_properties.projectId
                    project_name := ev.event_properties.projectName
                    file_info := none
                    prompts := [ev.event_properties.promptSuggest]
                    exports := [] },
                  ?_, rfl, ?_, ?_⟩
          · simp [handle_export_event, hty, hl, hs]
          · intro _; simp [hty, hl]
          · intro hcontra; exact absurd hcontra (by decide)
  | file_export_succeeded =>
      cases hl : assocLookup ua.projects ev.event_properties.projectId with
      | some project =>
          refine ⟨{ project with
                      file_info := none
                      exports := project.exports ++ [mkExportInfo ev.event_properties] },
                  ?_, rfl, ?_, ?_⟩
          · simp [handle_export_event, hty, hl, hs]
          · rintro (hcontra | hcontra) <;> exact absurd hcontra (by decide)
          · intro _; simp [hl]
      | none =>
          refine ⟨{ projetc_id := ev.event_properties.projectId
                    project_name := ev.event_properties.projectName
                    file_info := none
                    prompts := []
                    exports := [mkExportInfo ev.event_properties] },
                  ?_, rfl, ?_, ?_⟩
          · simp [handle_export_event, hty, hl, hs]
          · rintro (hcontra | hcontra) <;> exact absurd hcontra (by decide)
          · intro _; simp [hl]

/-- C8 witness: the malformed-file-info theorem applied to the concrete
prompt record with an undecodable `projectFileInfo` string. -/
theorem handle_export_event_malformed_witness :
    ∃ p, handle_export_event evBadFileInfo uaEmptyU1 = some p ∧ p.file_info = none ∧
      ((evBadFileInfo.event_type = EventType.user_submit_prompt ∨
        evBadFileInfo.event_type = EventType.user_click_prompt_suggest) →
        p.prompts =
          (match assocLookup uaEmptyU1.projects evBadFileInfo.event_properties.projectId with
           | some q => q.prompts
           | none => []) ++
          [if evBadFileInfo.event_type = EventType.user_submit_prompt then
             evBadFileInfo.event_properties.prompt
           else evBadFileInfo.event_properties.promptSuggest]) ∧
      (evBadFileInfo.event_type = EventType.file_export_succeeded →
        p.exports =
          (match assocLookup uaEmptyU1.projects evBadFileInfo.event_properties.projectId with
           | some q => q.exports
           | none => []) ++ [mkExportInfo evBadFileInfo.event_properties]) :=
  handle_export_event_malformed evBadFileInfo uaEmptyU1 (by decide) (by decide)

/-- C9: in `build_analytics_message` a missing current value (`None`) takes
the "No data found" branch, a literal 0 takes the real-value branch (where a
zero duration renders as "None" through the duration formatter and every
other metric renders "0"), and a missing comparison-period value produces
the fixed "(No data for previous period)" comparison string. -/
theorem build_analytics_zero_vs_missing (prev : ReportMetrics) (cat : MetricCategory)
    (name : MetricsName) :
    (metricLine prev cat name none =
      "\n>f          - *" ++ renderMetricsName name ++ ":* No data found") ∧
    (metricLine prev cat name (some 0) =
      "\n>" ++
        (if name = MetricsName.export_mp4_landscape_with_captions ∨
            name = MetricsName.export_mp4_landscape_without_captions ∨
            name = MetricsName.export_mp4_vertical_with_captions ∨
            name = MetricsName.export_mp4_vertical_without_captions then
           "                    "
         else "          ") ++
        "- *" ++ renderMetricsName name ++ ":* " ++
        (if name = MetricsName.total_video_duration then "None" else "0") ++ " " ++
        renderOptStr (compareStr prev cat name (some 0))) ∧
    (∀ v : ℤ, prevLookup prev cat name = none →
      compareStr prev cat name (some v) = some "(No data for previous period)") := by
  refine ⟨rfl, ?_, ?_⟩
  · have hdur : seconds_to_readable_time ((0 : ℤ) : ℚ) = none := by
      norm_num [seconds_to_readable_time]
    have h0 : toString (0 : ℤ) = "0" := rfl
    have hws : ("          " ++ "          " : String) = "                    " := rfl
    simp only [metricLine, hdur, renderOptStr, h0, hws]
  · intro v h
    simp [compareStr, h]

/-- C9 witness: the theorem applied at an empty comparison structure and a
plain metric name, with the previous-period hypothesis discharged by
evaluation. -/
theorem build_analytics_zero_vs_missing_witness :
    compareStr { data := [] } { value := "Cat" } (MetricsName.otherName "m") (some 7) =
      some "(No data for previous period)" :=
  (build_analytics_zero_vs_missing { data := [] } { value := "Cat" }
    (MetricsName.otherName "m")).2.2 7 (by decide)

/-- C10: for a truthy current value whose comparison-period value is the
stored integer 0, the comparison string is the sentinel `None` — rendered
into the line as the literal text "None" — because
`format_percentage_change` bails out on any falsy argument. -/
theorem compare_str_zero_prev_renders_none (prev : ReportMetrics) (cat : MetricCategory)
    (name : MetricsName) (v : ℤ) (hv : v ≠ 0)
    (hprev : prevLookup prev cat name = some 0) :
    compareStr prev cat name (some v) = none ∧
    renderOptStr (compareStr prev cat name (some v)) = "None" ∧
    format_percentage_change (some (v : ℚ)) (some 0) = none := by
  have hfpc : format_percentage_change (some (v : ℚ)) (some 0) = none := by
    have h : pyFalsy (some 0) = true := by decide
    simp [format_percentage_change, h]
  have hcs : compareStr prev cat name (some v) = none := by
    simp [compareStr, hprev, hfpc]
  exact ⟨hcs, by rw [hcs]; rfl, hfpc⟩

/-- C10 witness: the theorem applied to the concrete comparison structure
storing 0 for the one metric, with current value 5. -/
theorem compare_str_zero_prev_renders_none_witness :
    compareStr prevWithZero { value := "Export" } (MetricsName.otherName "total_exports")
      (some 5) = none ∧
    renderOptStr (compareStr prevWithZero { value := "Export" }
      (MetricsName.otherName "total_exports") (some 5)) = "None" ∧
    format_percentage_change (some ((5 : ℤ) : ℚ)) (some 0) = none :=
  compare_str_zero_prev_renders_none prevWithZero { value := "Export" }
    (MetricsName.otherName "total_exports") 5 (by decide) (by decide)

theorem lastNLIdx_lt (l : List Char) (j : ℕ) (h : lastNLIdx l = some j) : j < l.length := by
  induction l generalizing j with
  | nil => cases h
  | cons c cs ih =>
      unfold lastNLIdx at h
      cases hm : lastNLIdx cs with
      | some j' =>
          rw [hm] at h
          cases h
          have := ih j' hm
          simp
          omega
      | none =>
          rw [hm] at h
          by_cases hc : c = '\n'
          · rw [if_pos hc] at h
            cases h
            simp
          · rw [if_neg hc] at h
            cases h

theorem lastNLIdx_none_iff (l : List Char) : lastNLIdx l = none ↔ '\n' ∉ l := by
  induction l with
  | nil => simp [lastNLIdx]
  | cons c cs ih =>
      unfold lastNLIdx
      cases hm : lastNLIdx cs with
      | some j' =>
          simp only []
          constructor
          · intro h; cases h
          · intro h
            exfalso
            have : '\n' ∉ cs := by
              intro hmem
              exact h (List.mem_cons_of_mem c hmem)
            rw [← ih] at this
            rw [hm] at this
            cases this
      | none =>
          have hcs : '\n' ∉ cs := by rw [← ih, hm]
          by_cases hc : c = '\n'
          · rw [if_pos hc]
            constructor
            · intro h; cases h
            · intro h; exact absurd (hc ▸ List.mem_cons_self c cs) h
          · rw [if_neg hc]
            constructor
            · intro _ hmem
              rcases List.mem_cons.mp hmem with h | h
              · exact hc h.symm
              · exact hcs h
            · intro _; rfl

theorem chunkOne_pos (limit : ℕ) (hl : 0 < limit) (r : List Char) (hr : r ≠ []) :
    0 < chunkOne limit r := by
  unfold chunkOne
  by_cases h : limit < r.length
  · rw [if_pos h]
    cases hm : lastNLIdx (r.take limit) with
    | some j => show 0 < j + 1; omega
    | none => show 0 < limit; exact hl
  · rw [if_neg h]
    exact List.length_pos.mpr hr

theorem chunkOne_le_length (limit : ℕ) (r : List Char) : chunkOne limit r ≤ r.length := by
  unfold chunkOne
  by_cases h : limit < r.length
  · rw [if_pos h]
    cases hm : lastNLIdx (r.take limit) with
    | some j =>
        have := lastNLIdx_lt _ _ hm
        rw [List.length_take] at this
        show j + 1 ≤ r.length
        omega
    | none => show limit ≤ r.length; omega
  · rw [if_neg h]

theorem chunkOne_le_limit (limit : ℕ) (r : List Char) : chunkOne limit r ≤ limit := by
  unfold chunkOne
  by_cases h : limit < r.length
  · rw [if_pos h]
    cases hm : lastNLIdx (r.take limit) with
    | some j =>
        have := lastNLIdx_lt _ _ hm
        rw [List.length_take] at this
        show j + 1 ≤ limit
        omega
    | none => show limit ≤ limit; omega
  · rw [if_neg h]
    omega

theorem chunksFromGo_nil (limit fuel : ℕ) : chunksFromGo limit fuel [] = [] := by
  cases fuel <;> rfl

theorem chunksFromGo_succ (limit fuel : ℕ) (r : List Char) (hr : r ≠ []) :
    chunksFromGo limit (fuel + 1) r =
      r.take (chunkOne limit r) :: chunksFromGo limit fuel (r.drop (chunkOne limit r)) := by
  cases r with
  | nil => exact absurd rfl hr
  | cons c cs => rfl

theorem chunksFromGo_flatten (limit : ℕ) (hl : 0 < limit) :
    ∀ (fuel : ℕ) (r : List Char), r.length ≤ fuel →
      (chunksFromGo limit fuel r).flatten = r := by
  intro fuel
  induction fuel with
  | zero =>
      intro r h
      have : r = [] := List.length_eq_zero.mp (by omega)
      subst this
      rfl
  | succ n ih =>
      intro r h
      by_cases hr : r = []
      · subst hr
        rw [chunksFromGo_nil]
        rfl
      · rw [chunksFromGo_succ limit n r hr]
        have hpos := chunkOne_pos limit hl r hr
        have hle := chunkOne_le_length limit r
        rw [List.flatten_cons, ih (r.drop (chunkOne limit r)) (by rw [List.length_drop]; omega)]
        exact List.take_append_drop _ r

theorem chunksFromGo_mem_le (limit : ℕ) :
    ∀ (fuel : ℕ) (r : List Char) (c : List Char), c ∈ chunksFromGo limit fuel r →
      c.length ≤ limit := by
  intro fuel
  induction fuel with
  | zero => intro r c h; cases h
  | succ n ih =>
      intro r c h
      by_cases hr : r = []
      · subst hr; rw [chunksFromGo_nil] at h; cases h
      · rw [chunksFromGo_succ limit n r hr] at h
        rcases List.mem_cons.mp h with h | h
        · subst h
          rw [List.length_take]
          have := chunkOne_le_limit limit r
          omega
        · exact ih _ _ h

theorem chunkStart_zero (cs : List (List Char)) : chunkStart cs 0 = 0 := rfl

theorem chunkStart_cons_succ (c : List Char) (cs : List (List Char)) (k : ℕ) :
    chunkStart (c :: cs) (k + 1) = c.length + chunkStart cs k := by
  simp [chunkStart]

theorem chunksFromGo_get (limit : ℕ) (hl : 0 < limit) :
    ∀ (fuel : ℕ) (r : List Char), r.length ≤ fuel →
      ∀ (k : ℕ) (hk : k < (chunksFromGo limit fuel r).length),
        (chunksFromGo limit fuel r)[k] =
          (r.drop (chunkStart (chunksFromGo limit fuel r) k)).take
            (chunkOne limit (r.drop (chunkStart (chunksFromGo limit fuel r) k))) ∧
        chunkStart (chunksFromGo limit fuel r) k < r.length := by
  intro fuel
  induction fuel with
  | zero =>
      intro r h k hk
      exfalso
      have hz : chunksFromGo limit 0 r = [] := rfl
      rw [hz] at hk
      exact Nat.not_lt_zero k hk
  | succ n ih =>
      intro r h k hk
      by_cases hr : r = []
      · exfalso
        subst hr
        rw [chunksFromGo_nil] at hk
        exact Nat.not_lt_zero k hk
      · have hstep := chunksFromGo_succ limit n r hr
        have hpos := chunkOne_pos limit hl r hr
        have hle := chunkOne_le_length limit r
        simp only [hstep]
        cases k with
        | zero =>
            refine ⟨?_, ?_⟩
            · simp [chunkStart_zero]
            · rw [chunkStart_zero]
              exact List.length_pos.mpr hr
        | succ k' =>
            have hk' : k' < (chunksFromGo limit n (r.drop (chunkOne limit r))).length := by
              rw [hstep] at hk
              simpa using hk
            have hlen2 : (r.drop (chunkOne limit r)).length ≤ n := by
              rw [List.length_drop]; omega
            obtain ⟨ihget, ihpos⟩ := ih (r.drop (chunkOne limit r)) hlen2 k' hk'
            have hstart : chunkStart
                (r.take (chunkOne limit r) ::
                  chunksFromGo limit n (r.drop (chunkOne limit r))) (k' + 1) =
                chunkOne limit r +
                  chunkStart (chunksFromGo limit n (r.drop (chunkOne limit r))) k' := by
              rw [chunkStart_cons_succ, List.length_take]
              congr 1
              omega
            refine ⟨?_, ?_⟩
            · rw [List.getElem_cons_succ, ihget, hstart, List.drop_drop]
            · rw [hstart]
              rw [List.length_drop] at ihpos
              omega

theorem chunkMessage_single (s : List Char) (hs : s ≠ []) (hlen : s.length ≤ SLACK_MESSAGE_LIMIT) :
    chunkMessage s = [s] := by
  show chunksFromGo SLACK_MESSAGE_LIMIT s.length s = [s]
  cases hsl : s.length with
  | zero => exact absurd (List.length_eq_zero.mp hsl) hs
  | succ m =>
      rw [chunksFromGo_succ _ m s hs]
      have hc : chunkOne SLACK_MESSAGE_LIMIT s = s.length := by
        unfold chunkOne
        rw [if_neg (by omega)]
      rw [hc, List.take_length, List.drop_length, chunksFromGo_nil]

/-- C5 counterexample: the empty string has length at most the limit, yet
the loop body never runs and zero chunks are produced, not one. -/
theorem chunkMessage_empty_counterexample :
    chunkMessage [] = [] ∧ ¬ (chunkMessage []).length = 1 := by decide

/-- C5 (amended): the loop always advances — from any position strictly
inside the string the next boundary is strictly further right, so the chunk
sequence is finite — and every NON-EMPTY string no longer than the limit
comes out as exactly one chunk (the empty string produces no chunk at
all). -/
theorem chunkMessage_progress_single :
    (∀ (s : List Char) (i : ℕ), i < s.length →
      0 < chunkOne SLACK_MESSAGE_LIMIT (s.drop i)) ∧
    (∀ s : List Char, s ≠ [] → s.length ≤ SLACK_MESSAGE_LIMIT → chunkMessage s = [s]) := by
  constructor
  · intro s i hi
    apply chunkOne_pos SLACK_MESSAGE_LIMIT (by norm_num [SLACK_MESSAGE_LIMIT])
    intro hcontra
    have hzero : (s.drop i).length = 0 := by rw [hcontra]; rfl
    rw [List.length_drop] at hzero
    omega
  · exact chunkMessage_single

/-- C5 witness: the progress bound at a concrete position and the
single-chunk shape of a concrete one-character message. -/
theorem chunkMessage_progress_single_witness :
    0 < chunkOne SLACK_MESSAGE_LIMIT ((['a', 'b'] : List Char).drop 1) ∧
    chunkMessage ['a'] = [['a']] :=
  ⟨chunkMessage_progress_single.1 ['a', 'b'] 1 (by decide),
   chunkMessage_progress_single.2 ['a'] (by decide) (by decide)⟩

/-- C4 counterexample: for the 3000-character string starting with a newline
the (exactly limit-sized) window contains a newline, yet the loop emits the
whole string as a single chunk whose boundary falls exactly at the limit,
not immediately after the newline as the claim's boundary rule demands. -/
theorem chunk_boundary_counterexample : ¬ claimC4pred nlFirst3000 := by
  intro hcl
  obtain ⟨hjoin, hbound, hrule⟩ := hcl
  have hlen : nlFirst3000.length = 3000 := by
    show ('\n' :: List.replicate 2999 'a').length = 3000
    rw [List.length_cons, List.length_replicate]
  have hne : nlFirst3000 ≠ [] := List.cons_ne_nil _ _
  have hchunks : chunkMessage nlFirst3000 = [nlFirst3000] :=
    chunkMessage_single nlFirst3000 hne (by rw [hlen]; decide)
  have hk : 0 < (chunkMessage nlFirst3000).length := by rw [hchunks]; decide
  have hval := hrule 0 hk
  simp only [chunkStart_zero, List.drop_zero] at hval
  have htake : nlFirst3000.take SLACK_MESSAGE_LIMIT = nlFirst3000 := by
    apply List.take_of_length_le
    rw [hlen]
    decide
  have hnl : lastNLIdx nlFirst3000 = some 0 := by
    have hrep : lastNLIdx (List.replicate 2999 'a') = none :=
      (lastNLIdx_none_iff _).mpr (by
        intro hmem
        rw [List.mem_replicate] at hmem
        exact absurd hmem.2 (by decide))
    show lastNLIdx ('\n' :: List.replicate 2999 'a') = some 0
    unfold lastNLIdx
    rw [hrep]
    decide
  rw [htake, hnl] at hval
  have hgot : (chunkMessage nlFirst3000)[0] = nlFirst3000 := by
    simp [hchunks]
  rw [hgot, hlen] at hval
  exact absurd hval (by decide)

/-- C4 (amended): the chunks concatenate back to the original string and
each is at most the limit long; whenever the limit-sized window starting at
a chunk's position lies strictly inside the string, the chunk ends
immediately after the window's last newline (exactly at the limit when the
window has none); once the remainder fits within the limit it is emitted
whole as the final chunk.  A 7000-character newline-free string yields
chunks of lengths 3000, 3000, 1000. -/
theorem chunkMessage_amended_spec (s : List Char) :
    (chunkMessage s).flatten = s ∧
    (∀ c ∈ chunkMessage s, c.length ≤ SLACK_MESSAGE_LIMIT) ∧
    (∀ k, (hk : k < (chunkMessage s).length) →
      (chunkStart (chunkMessage s) k + SLACK_MESSAGE_LIMIT < s.length →
        (chunkMessage s)[k].length =
          match lastNLIdx ((s.drop (chunkStart (chunkMessage s) k)).take SLACK_MESSAGE_LIMIT) with
          | some j => j + 1
          | none => SLACK_MESSAGE_LIMIT) ∧
      (s.length ≤ chunkStart (chunkMessage s) k + SLACK_MESSAGE_LIMIT →
        (chunkMessage s)[k].length = s.length - chunkStart (chunkMessage s) k)) ∧
    (chunkMessage (List.replicate 7000 'a')).map List.length = [3000, 3000, 1000] := by
  have hl : 0 < SLACK_MESSAGE_LIMIT := by norm_num [SLACK_MESSAGE_LIMIT]
  refine ⟨chunksFromGo_flatten _ hl s.length s le_rfl,
          fun c hc => chunksFromGo_mem_le _ _ _ _ hc, ?_, ?_⟩
  · intro k hk
    obtain ⟨hget, hpos⟩ := chunksFromGo_get _ hl s.length s le_rfl k hk
    constructor
    · intro hwin
      rw [show (chunkMessage s)[k] =
            (s.drop (chunkStart (chunkMessage s) k)).take
              (chunkOne SLACK_MESSAGE_LIMIT (s.drop (chunkStart (chunkMessage s) k)))
          from hget]
      rw [List.length_take]
      have hlt : SLACK_MESSAGE_LIMIT < (s.drop (chunkStart (chunkMessage s) k)).length := by
        rw [List.length_drop]
        omega
      rw [Nat.min_eq_left (chunkOne_le_length _ _)]
      unfold chunkOne
      rw [if_pos hlt]
    · intro hfit
      rw [show (chunkMessage s)[k] =
            (s.drop (chunkStart (chunkMessage s) k)).take
              (chunkOne SLACK_MESSAGE_LIMIT (s.drop (chunkStart (chunkMessage s) k)))
          from hget]
      rw [List.length_take]
      have hdrop : (s.drop (chunkStart (chunkMessage s) k)).length =
          s.length - chunkStart (chunkMessage s) k := List.length_drop _ _
      have hco : chunkOne SLACK_MESSAGE_LIMIT (s.drop (chunkStart (chunkMessage s) k)) =
          (s.drop (chunkStart (chunkMessage s) k)).length := by
        unfold chunkOne
        rw [if_neg (by omega)]
      rw [hco, Nat.min_self, hdrop]
  · have hrepne : ∀ n : ℕ, n ≠ 0 → (List.replicate n 'a' : List Char) ≠ [] := by
      intro n hn hcontra
      have hlr := congrArg List.length hcontra
      rw [List.length_replicate] at hlr
      exact hn hlr
    have hnl_rep : ∀ n : ℕ, lastNLIdx (List.replicate n 'a') = none := fun n =>
      (lastNLIdx_none_iff _).mpr (by
        intro hmem
        rw [List.mem_replicate] at hmem
        exact absurd hmem.2 (by decide))
    have hcOver : ∀ n : ℕ, SLACK_MESSAGE_LIMIT < n →
        chunkOne SLACK_MESSAGE_LIMIT (List.replicate n 'a') = SLACK_MESSAGE_LIMIT := by
      intro n hn
      unfold chunkOne
      rw [if_pos (by rw [List.length_replicate]; exact hn)]
      rw [List.take_replicate, hnl_rep]
    have hcUnder : ∀ n : ℕ, n ≤ SLACK_MESSAGE_LIMIT →
        chunkOne SLACK_MESSAGE_LIMIT (List.replicate n 'a') = n := by
      intro n hn
      unfold chunkOne
      rw [if_neg (by rw [List.length_replicate]; omega), List.length_replicate]
    have s1 : chunksFromGo SLACK_MESSAGE_LIMIT 7000 (List.replicate 7000 'a') =
        List.replicate 3000 'a' ::
          chunksFromGo SLACK_MESSAGE_LIMIT 6999 (List.replicate 4000 'a') := by
      have hstep := chunksFromGo_succ SLACK_MESSAGE_LIMIT 6999 (List.replicate 7000 'a')
        (hrepne 7000 (by decide))
      rw [hcOver 7000 (by decide), List.take_replicate, List.drop_replicate,
          (by decide : min SLACK_MESSAGE_LIMIT 7000 = 3000),
          (by decide : 7000 - SLACK_MESSAGE_LIMIT = 4000)] at hstep
      exact hstep
    have s2 : chunksFromGo SLACK_MESSAGE_LIMIT 6999 (List.replicate 4000 'a') =
        List.replicate 3000 'a' ::
          chunksFromGo SLACK_MESSAGE_LIMIT 6998 (List.replicate 1000 'a') := by
      have hstep := chunksFromGo_succ SLACK_MESSAGE_LIMIT 6998 (List.replicate 4000 'a')
        (hrepne 4000 (by decide))
      rw [hcOver 4000 (by decide), List.take_replicate, List.drop_replicate,
          (by decide : min SLACK_MESSAGE_LIMIT 4000 = 3000),
          (by decide : 4000 - SLACK_MESSAGE_LIMIT = 1000)] at hstep
      exact hstep
    have s3 : chunksFromGo SLACK_MESSAGE_LIMIT 6998 (List.replicate 1000 'a') =
        [List.replicate 1000 'a'] := by
      have hstep := chunksFromGo_succ SLACK_MESSAGE_LIMIT 6997 (List.replicate 1000 'a')
        (hrepne 1000 (by decide))
      rw [hcUnder 1000 (by decide), List.take_replicate, List.drop_replicate,
          (by decide : min (1000 : ℕ) 1000 = 1000),
          (by decide : (1000 : ℕ) - 1000 = 0), List.replicate_zero,
          chunksFromGo_nil] at hstep
      exact hstep
    have e0 : chunkMessage (List.replicate 7000 'a') =
        chunksFromGo SLACK_MESSAGE_LIMIT 7000 (List.replicate 7000 'a') := by
      unfold chunkMessage chunksWith
      rw [List.length_replicate]
    rw [e0, s1, s2, s3, List.map_cons, List.map_cons, List.map_cons, List.map_nil,
        List.length_replicate, List.length_replicate]

/-- C4 witness: the amended theorem applied to a concrete one-character
message, discharging the final-chunk hypothesis by evaluation. -/
theorem chunkMessage_amended_spec_witness :
    (chunkMessage ['a'])[0].length = (['a'] : List Char).length - chunkStart (chunkMessage ['a']) 0 :=
  ((chunkMessage_amended_spec ['a']).2.2.1 0 (by decide)).2 (by decide)

theorem handle_export_event_isSome (ev : RawEvent) (ua : UserActivity) :
    (handle_export_event ev ua).isSome = recognizedType ev.event_type := by
  cases hty : ev.event_type <;>
    simp only [handle_export_event, hty, recognizedType] <;>
    cases assocLookup ua.projects ev.event_properties.projectId <;>
    simp

theorem mem_keys_assocUpdate {α β : Type} [DecidableEq α] (l : List (α × β)) (k : α) (v : β)
    (x : α) : x ∈ (assocUpdate l k v).map Prod.fst ↔ x ∈ l.map Prod.fst ∨ x = k := by
  induction l with
  | nil => simp [assocUpdate]
  | cons kv rest ih =>
      obtain ⟨k', v'⟩ := kv
      by_cases hk : k' = k
      · subst hk
        simp [assocUpdate]
        tauto
      · simp [assocUpdate, hk, ih]
        tauto

theorem assocLookup_mem {α β : Type} [DecidableEq α] (l : List (α × β)) (k : α) (v : β)
    (h : assocLookup l k = some v) : (k, v) ∈ l := by
  induction l with
  | nil => cases h
  | cons kv rest ih =>
      obtain ⟨k', v'⟩ := kv
      by_cases hk : k' = k
      · subst hk
        rw [assocLookup, if_pos rfl] at h
        cases h
        exact List.mem_cons_self _ _
      · rw [assocLookup, if_neg hk] at h
        exact List.mem_cons_of_mem _ (ih h)

theorem mem_assocUpdate {α β : Type} [DecidableEq α] (l : List (α × β)) (k : α) (v : β)
    (kv : α × β) (h : kv ∈ assocUpdate l k v) : kv ∈ l ∨ kv = (k, v) := by
  induction l with
  | nil =>
      rw [assocUpdate] at h
      rcases List.mem_cons.mp h with h | h
      · exact Or.inr h
      · cases h
  | cons kv' rest ih =>
      obtain ⟨k', v'⟩ := kv'
      by_cases hk : k' = k
      · subst hk
        rw [assocUpdate, if_pos rfl] at h
        rcases List.mem_cons.mp h with h | h
        · exact Or.inr h
        · exact Or.inl (List.mem_cons_of_mem _ h)
      · rw [assocUpdate, if_neg hk] at h
        rcases List.mem_cons.mp h with h | h
        · exact Or.inl (h ▸ List.mem_cons_self _ _)
        · rcases ih h with h | h
          · exact Or.inl (List.mem_cons_of_mem _ h)
          · exact Or.inr h

theorem mem_keys_processRecord (store : UserStore) (index : ℕ) (ev : RawEvent) (uid : String) :
    uid ∈ (processRecord store index ev).map Prod.fst ↔
      uid ∈ store.map Prod.fst ∨ qualifies uid index ev := by
  unfold processRecord
  by_cases hdt : ev.data_type ≠ some "event"
  · rw [if_pos hdt]
    simp only [qualifies]
    constructor
    · exact Or.inl
    · rintro (h | ⟨h, _, _⟩)
      · exact h
      · exact absurd h hdt
  · rw [if_neg hdt]
    push_neg at hdt
    have hiss := handle_export_event_isSome ev
      ((assocLookup store (identityKey ev index)).getD
        { email := identityKey ev index, projects := [] })
    cases hh : handle_export_event ev
        ((assocLookup store (identityKey ev index)).getD
          { email := identityKey ev index, projects := [] }) with
    | none =>
        rw [hh] at hiss
        simp only [hh]
        simp only [qualifies]
        constructor
        · exact Or.inl
        · rintro (h | ⟨_, hrec, _⟩)
          · exact h
          · rw [← hiss] at hrec
            cases hrec
    | some p =>
        rw [hh] at hiss
        simp only [hh]
        rw [mem_keys_assocUpdate]
        simp only [qualifies]
        constructor
        · rintro (h | h)
          · exact Or.inl h
          · exact Or.inr ⟨hdt, hiss.symm, h.symm⟩
        · rintro (h | ⟨_, _, h⟩)
          · exact Or.inl h
          · exact Or.inr h.symm

theorem mem_keys_processRecords (evs : List RawEvent) :
    ∀ (store : UserStore) (index : ℕ) (uid : String),
      uid ∈ (processRecords store index evs).map Prod.fst ↔
        uid ∈ store.map Prod.fst ∨
          ∃ j, ∃ _ : j < evs.length, qualifies uid (index + j) evs[j] := by
  induction evs with
  | nil =>
      intro store index uid
      simp [processRecords]
  | cons e rest ih =>
      intro store index uid
      show uid ∈ (processRecords (processRecord store index e) (index + 1) rest).map Prod.fst ↔ _
      rw [ih, mem_keys_processRecord]
      constructor
      · rintro ((h | h) | ⟨j, hj, hq⟩)
        · exact Or.inl h
        · exact Or.inr ⟨0, by simp, by simpa using h⟩
        · refine Or.inr ⟨j + 1, by simpa using hj, ?_⟩
          rw [List.getElem_cons_succ]
          have harith : index + (j + 1) = index + 1 + j := by omega
          rw [harith]
          exact hq
      · rintro (h | ⟨j, hj, hq⟩)
        · exact Or.inl (Or.inl h)
        · cases j with
          | zero =>
              refine Or.inl (Or.inr ?_)
              simpa using hq
          | succ j' =>
              refine Or.inr ⟨j', by simpa using hj, ?_⟩
              rw [List.getElem_cons_succ] at hq
              have harith : index + 1 + j' = index + (j' + 1) := by omega
              rw [harith]
              exact hq

theorem mem_keys_runFiles (fs : List (List RawEvent)) :
    ∀ (store : UserStore) (uid : String),
      uid ∈ (runFiles store fs).map Prod.fst ↔
        uid ∈ store.map Prod.fst ∨
          ∃ i, ∃ _ : i < fs.length, ∃ j, ∃ _ : j < fs[i].length,
            qualifies uid (j + 1) (fs[i])[j] := by
  induction fs with
  | nil =>
      intro store uid
      simp [runFiles]
  | cons f rest ih =>
      intro store uid
      show uid ∈ (runFiles (processRecords store 1 f) rest).map Prod.fst ↔ _
      rw [ih, mem_keys_processRecords]
      constructor
      · rintro ((h | ⟨j, hj, hq⟩) | ⟨i, hi, j, hj, hq⟩)
        · exact Or.inl h
        · refine Or.inr ⟨0, by simp, j, by simpa using hj, ?_⟩
          have harith : j + 1 = 1 + j := by omega
          rw [harith]
          simpa using hq
        · exact Or.inr ⟨i + 1, by simpa using hi, j, by simpa using hj, by simpa using hq⟩
      · rintro (h | ⟨i, hi, j, hj, hq⟩)
        · exact Or.inl (Or.inl h)
        · cases i with
          | zero =>
              refine Or.inl (Or.inr ⟨j, by simpa using hj, ?_⟩)
              have harith : 1 + j = j + 1 := by omega
              rw [harith]
              simpa using hq
          | succ i' =>
              exact Or.inr ⟨i', by simpa using hi, j, by simpa using hj, by simpa using hq⟩

/-- Every committed store entry's activity carries its key as `email`. -/
def StoreEmailsOk (store : UserStore) : Prop :=
  ∀ kv ∈ store, (Prod.snd kv).email = Prod.fst kv

theorem storeEmailsOk_processRecord (store : UserStore) (index : ℕ) (ev : RawEvent)
    (h : StoreEmailsOk store) : StoreEmailsOk (processRecord store index ev) := by
  unfold processRecord
  by_cases hdt : ev.data_type ≠ some "event"
  · rw [if_pos hdt]; exact h
  · rw [if_neg hdt]
    cases hh : handle_export_event ev
        ((assocLookup store (identityKey ev index)).getD
          { email := identityKey ev index, projects := [] }) with
    | none => simp only [hh]; exact h
    | some p =>
        simp only [hh]
        intro kv hkv
        rcases mem_assocUpdate _ _ _ kv hkv with hm | hm
        · exact h kv hm
        · subst hm
          show (UserActivity.add_project _ p).email = identityKey ev index
          cases hlook : assocLookup store (identityKey ev index) with
          | none => rfl
          | some ua0 =>
              exact h (identityKey ev index, ua0) (assocLookup_mem _ _ _ hlook)

theorem storeEmailsOk_processRecords (evs : List RawEvent) :
    ∀ (store : UserStore) (index : ℕ), StoreEmailsOk store →
      StoreEmailsOk (processRecords store index evs) := by
  induction evs with
  | nil => intro store index h; exact h
  | cons e rest ih =>
      intro store index h
      exact ih _ _ (storeEmailsOk_processRecord store index e h)

theorem storeEmailsOk_runFiles (fs : List (List RawEvent)) :
    ∀ (store : UserStore), StoreEmailsOk store → StoreEmailsOk (runFiles store fs) := by
  induction fs with
  | nil => intro store h; exact h
  | cons f rest ih =>
      intro store h
      exact ih _ (storeEmailsOk_processRecords f store 1 h)

/-- C1: an identity key appears in the output of `parse_export_data` exactly
when some record of the input — at its 1-based per-file position — is tagged
"event", has a recognized (prompt-type or export-succeeded) event type, and
computes that identity key; identities whose records are all of other kinds
are never committed to the store. -/
theorem parse_export_data_identity_mem (files : List (List RawEvent)) (uid : String) :
    uid ∈ (parse_export_data files).map UserActivity.email ↔
      ∃ i, ∃ _ : i < files.length, ∃ j, ∃ _ : j < files[i].length,
        (files[i])[j].data_type = some "event" ∧
        recognizedType (files[i])[j].event_type = true ∧
        identityKey (files[i])[j] (j + 1) = uid := by
  have hinv : StoreEmailsOk (runFiles [] files) :=
    storeEmailsOk_runFiles files [] (by intro kv hkv; cases hkv)
  have hemails : (parse_export_data files).map UserActivity.email =
      (runFiles [] files).map Prod.fst := by
    unfold parse_export_data
    rw [List.map_map]
    apply List.map_congr_left
    intro kv hkv
    exact hinv kv hkv
  rw [hemails, mem_keys_runFiles]
  simp [qualifies]

/-- C1 witness: the membership equivalence applied to a single-file input
with one recognized record for user "u1". -/
theorem parse_export_data_identity_mem_witness :
    "u1" ∈ (parse_export_data [[evBadFileInfo]]).map UserActivity.email :=
  (parse_export_data_identity_mem [[evBadFileInfo]] "u1").mpr
    ⟨0, by decide, 0, by decide, by decide, by decide, by decide⟩

theorem identityKey_eq_spec (ev : RawEvent) (index : ℕ) :
    identityKey ev index = specIdentityKey ev index := by
  unfold identityKey specIdentityKey anonLabel
  cases ev.user_id with
  | none => rfl
  | some s => by_cases hs : s = "" <;> simp [hs]

theorem processRecord_eq_spec (store : UserStore) (index : ℕ) (ev : RawEvent) :
    processRecord store index ev = processRecordSpec store index ev := by
  unfold processRecord processRecordSpec
  rw [identityKey_eq_spec]

theorem processRecords_eq_spec (evs : List RawEvent) :
    ∀ (store : UserStore) (index : ℕ),
      processRecords store index evs = processRecordsSpec store index evs := by
  induction evs with
  | nil => intro store index; rfl
  | cons e rest ih =>
      intro store index
      show processRecords (processRecord store index e) (index + 1) rest =
        processRecordsSpec (processRecordSpec store index e) (index + 1) rest
      rw [processRecord_eq_spec, ih]

theorem runFiles_eq_spec (fs : List (List RawEvent)) :
    ∀ store : UserStore, runFiles store fs = runFilesSpec store fs := by
  induction fs with
  | nil => intro store; rfl
  | cons f rest ih =>
      intro store
      show runFiles (processRecords store 1 f) rest =
        runFilesSpec (processRecordsSpec store 1 f) rest
      rw [processRecords_eq_spec, ih]

/-- C2 counterexample: on two one-record files whose anonymous record has
neither `user_id` nor `amplitude_id`, the per-file enumeration of
`parse_export_data` gives both records position 1 and merges them into one
identity, while the claim's overall (cross-file) indexing would give the
second record position 2 and produce a second identity. -/
theorem parse_export_data_not_overall :
    ¬ (parse_export_data filesTwoAnon = parse_export_data_overall filesTwoAnon) := by
  decide

/-- C2 (amended): the identity key of a record is its `user_id` when present
and non-empty, and otherwise the synthesized
"Anonymous (Amplitude ID-<x>)" label where `<x>` is `amplitude_id` if
present and otherwise the record's 1-based position WITHIN ITS OWN FILE
(the enumeration restarts at 1 for every input file). -/
theorem parse_export_data_per_file_indexed (files : List (List RawEvent)) :
    parse_export_data files = parse_export_data_perFile files := by
  unfold parse_export_data parse_export_data_perFile
  rw [runFiles_eq_spec]

theorem keyConsistent_applyEvent (ua : UserActivity) (ev : RawEvent)
    (hk : KeyConsistent ua) : KeyConsistent (applyEvent ua ev) := by
  unfold applyEvent
  cases hh : handle_export_event ev ua with
  | none => exact hk
  | some p =>
      intro kv hkv
      rcases mem_assocUpdate _ _ _ kv hkv with hm | hm
      · exact hk kv hm
      · subst hm; rfl

theorem keyConsistent_applyEvents (evs : List RawEvent) :
    ∀ ua : UserActivity, KeyConsistent ua → KeyConsistent (applyEvents ua evs) := by
  induction evs with
  | nil => intro ua hk; exact hk
  | cons e rest ih =>
      intro ua hk
      exact ih _ (keyConsistent_applyEvent ua e hk)

theorem handle_some_project_fields (ev : RawEvent) (ua : UserActivity)
    (hk : KeyConsistent ua) (hrec : recognizedType ev.event_type = true) :
    ∃ p, handle_export_event ev ua = some p ∧
      p.projetc_id = ev.event_properties.projectId ∧
      p.file_info = fileInfoSummary ev.event_properties.projectFileInfo := by
  cases hty : ev.event_type with
  | otherTag s => rw [hty] at hrec; simp [recognizedType] at hrec
  | user_submit_prompt =>
      cases hl : assocLookup ua.projects ev.event_properties.projectId with
      | some project =>
          refine ⟨{ project with
                      file_info := fileInfoSummary ev.event_properties.projectFileInfo
                      prompts := project.prompts ++ [ev.event_properties.prompt] },
                  by simp [handle_export_event, hty, hl], ?_, rfl⟩
          exact hk (ev.event_properties.projectId, project) (assocLookup_mem _ _ _ hl)
      | none =>
          exact ⟨{ projetc_id := ev.event_properties.projectId
                   project_name := ev.event_properties.projectName
                   file_info := fileInfoSummary ev.event_properties.projectFileInfo
                   prompts := [ev.event_properties.prompt]
                   exports := [] },
                 by simp [handle_export_event, hty, hl], rfl, rfl⟩
  | user_click_prompt_suggest =>
      cases hl : assocLookup ua.projects ev.event_properties.projectId with
      | some project =>
          refine ⟨{ project with
                      file_info := fileInfoSummary ev.event_properties.projectFileInfo
                      prompts := project.prompts ++ [ev.event_properties.promptSuggest] },
                  by simp [handle_export_event, hty, hl], ?_, rfl⟩
          exact hk (ev.event_properties.projectId, project) (assocLookup_mem _ _ _ hl)
      | none =>
          exact ⟨{ projetc_id := ev.event_properties.projectId
                   project_name := ev.event_properties.projectName
                   file_info := fileInfoSummary ev.event_properties.projectFileInfo
                   prompts := [ev.event_properties.promptSuggest]
                   exports := [] },
                 by simp [handle_export_event, hty, hl], rfl, rfl⟩
  | file_export_succeeded =>
      cases hl : assocLookup ua.projects ev.event_properties.projectId with
      | some project =>
          refine ⟨{ project with
                      file_info := fileInfoSummary ev.event_properties.projectFileInfo
                      exports := project.exports ++ [mkExportInfo ev.event_properties] },
                  by simp [handle_export_event, hty, hl], ?_, rfl⟩
          exact hk (ev.event_properties.projectId, project) (assocLookup_mem _ _ _ hl)
      | none =>
          exact ⟨{ projetc_id := ev.event_properties.projectId
                   project_name := ev.event_properties.projectName
                   file_info := fileInfoSummary ev.event_properties.projectFileInfo
                   prompts := []
                   exports := [mkExportInfo ev.event_properties] },
                 by simp [handle_export_event, hty, hl], rfl, rfl⟩

theorem assocLookup_update_self {α β : Type} [DecidableEq α] (l : List (α × β)) (k : α)
    (v : β) : assocLookup (assocUpdate l k v) k = some v := by
  induction l with
  | nil => simp [assocUpdate, assocLookup]
  | cons kv rest ih =>
      obtain ⟨k', v'⟩ := kv
      by_cases hk : k' = k
      · subst hk
        rw [assocUpdate, if_pos rfl, assocLookup, if_pos rfl]
      · rw [assocUpdate, if_neg hk, assocLookup, if_neg hk]
        exact ih

theorem assocLookup_update_ne {α β : Type} [DecidableEq α] (l : List (α × β)) (k : α)
    (v : β) (k' : α) (h : k ≠ k') :
    assocLookup (assocUpdate l k v) k' = assocLookup l k' := by
  induction l with
  | nil => simp [assocUpdate, assocLookup, h]
  | cons kv rest ih =>
      obtain ⟨k0, v0⟩ := kv
      by_cases hk : k0 = k
      · subst hk
        rw [assocUpdate, if_pos rfl, assocLookup, assocLookup, if_neg h, if_neg h]
      · rw [assocUpdate, if_neg hk, assocLookup, assocLookup]
        by_cases hk' : k0 = k'
        · rw [if_pos hk', if_pos hk']
        · rw [if_neg hk', if_neg hk']
          exact ih

theorem applyEvent_sets (ua : UserActivity) (ev : RawEvent) (hk : KeyConsistent ua)
    (hrec : recognizedType ev.event_type = true) :
    ∃ p, assocLookup (applyEvent ua ev).projects ev.event_properties.projectId = some p ∧
      p.file_info = fileInfoSummary ev.event_properties.projectFileInfo := by
  obtain ⟨p, hh, hpid, hfi⟩ := handle_some_project_fields ev ua hk hrec
  refine ⟨p, ?_, hfi⟩
  unfold applyEvent
  rw [hh]
  show assocLookup (assocUpdate ua.projects p.projetc_id p) ev.event_properties.projectId =
    some p
  rw [hpid]
  exact assocLookup_update_self _ _ _

theorem applyEvent_lookup_other (ua : UserActivity) (ev : RawEvent)
    (pid : Option String) (hk : KeyConsistent ua)
    (h : ¬(recognizedType ev.event_type = true ∧ ev.event_properties.projectId = pid)) :
    assocLookup (applyEvent ua ev).projects pid = assocLookup ua.projects pid := by
  unfold applyEvent
  cases hh : handle_export_event ev ua with
  | none => rfl
  | some p =>
      have hrec : recognizedType ev.event_type = true := by
        have := handle_export_event_isSome ev ua
        rw [hh] at this
        exact this.symm
      obtain ⟨p', hh', hpid', _⟩ := handle_some_project_fields ev ua hk hrec
      rw [hh] at hh'
      cases hh'
      have hne : p.projetc_id ≠ pid := by
        rw [hpid']
        intro hc
        exact h ⟨hrec, hc⟩
      exact assocLookup_update_ne _ _ _ _ hne

theorem applyEvents_lookup_preserved (evs : List RawEvent) :
    ∀ (ua : UserActivity) (pid : Option String), KeyConsistent ua →
      (∀ e ∈ evs, ¬(recognizedType e.event_type = true ∧
        e.event_properties.projectId = pid)) →
      assocLookup (applyEvents ua evs).projects pid = assocLookup ua.projects pid := by
  induction evs with
  | nil => intro ua pid _ _; rfl
  | cons e rest ih =>
      intro ua pid hk hall
      show assocLookup (applyEvents (applyEvent ua e) rest).projects pid = _
      rw [ih (applyEvent ua e) pid (keyConsistent_applyEvent ua e hk)
          (fun e' he' => hall e' (List.mem_cons_of_mem e he'))]
      exact applyEvent_lookup_other ua e pid hk (hall e (List.mem_cons_self e rest))

/-- C3 counterexample: two prompt events on the same project, the first
carrying file metadata (summarized as "a.txt (10 B)") and the second
carrying none: after processing, the project's file_info is None — the
second event overwrote it — not the summary of the most recent event that
carried file metadata. -/
theorem file_info_not_last_carried :
    lastCarriedSummary [mkSubmit (propsCarrying 10 "one"), mkSubmit (propsNoFile "two")] =
      some "a.txt (10 B)" ∧
    assocLookup (applyEvents uaEmptyU
        [mkSubmit (propsCarrying 10 "one"), mkSubmit (propsNoFile "two")]).projects
        (some "p") =
      some { projetc_id := some "p", project_name := some "P", file_info := none,
             prompts := [some "one", some "two"], exports := [] } ∧
    (none : Option String) ≠ some "a.txt (10 B)" := by
  decide

/-- C3 (amended): after a sequence of events is processed through
`handle_export_event` for one user, a project's `file_info` equals the
file-info summary computed for the LAST recognized event that touched that
project — the summary is overwritten on every recognized event, so it is
None whenever that last event carried no (or malformed) file metadata; in
particular, after three events for the same project each carrying different
file-info, the final value is the third event's summary. -/
theorem file_info_last_event_summary (ua : UserActivity) (evs1 : List RawEvent)
    (ev : RawEvent) (evs2 : List RawEvent) (hk : KeyConsistent ua)
    (hrec : recognizedType ev.event_type = true)
    (hafter : ∀ e ∈ evs2, ¬(recognizedType e.event_type = true ∧
      e.event_properties.projectId = ev.event_properties.projectId)) :
    ∃ p, assocLookup (applyEvents ua (evs1 ++ ev :: evs2)).projects
          ev.event_properties.projectId = some p ∧
      p.file_info = fileInfoSummary ev.event_properties.projectFileInfo := by
  have hsplit : applyEvents ua (evs1 ++ ev :: evs2) =
      applyEvents (applyEvent (applyEvents ua evs1) ev) evs2 := by
    unfold applyEvents
    rw [List.foldl_append, List.foldl_cons]
  rw [hsplit]
  have hk1 : KeyConsistent (applyEvents ua evs1) := keyConsistent_applyEvents evs1 ua hk
  obtain ⟨p, hlook, hfi⟩ := applyEvent_sets (applyEvents ua evs1) ev hk1 hrec
  refine ⟨p, ?_, hfi⟩
  rw [applyEvents_lookup_preserved evs2 _ _
      (keyConsistent_applyEvent (applyEvents ua evs1) ev hk1) hafter]
  exact hlook

/-- C3 witness: the amended theorem applied to three prompt events on the
same project carrying file sizes 1, 2 and 3 — the final file_info is the
third event's summary. -/
theorem file_info_last_event_summary_witness :
    ∃ p, assocLookup (applyEvents uaEmptyU
          ([mkSubmit (propsCarrying 1 "one"), mkSubmit (propsCarrying 2 "two")] ++
            mkSubmit (propsCarrying 3 "three") :: [])).projects
          (mkSubmit (propsCarrying 3 "three")).event_properties.projectId = some p ∧
      p.file_info =
        fileInfoSummary (mkSubmit (propsCarrying 3 "three")).event_properties.projectFileInfo :=
  file_info_last_event_summary uaEmptyU
    [mkSubmit (propsCarrying 1 "one"), mkSubmit (propsCarrying 2 "two")]
    (mkSubmit (propsCarrying 3 "three")) [] (by intro kv hkv; cases hkv) (by decide)
    (by intro e he; cases he)

/-- C6 witness: the amended sentinel equation evaluated at current value 7. -/
theorem format_percentage_change_zero_prior_sentinel_witness :
    format_percentage_change (some 7) (some 0) = none :=
  format_percentage_change_zero_prior_sentinel (some 7)

/-- C7 witness: the amended equivalence evaluated at 45 seconds. -/
theorem seconds_to_readable_time_amended_witness :
    seconds_to_readable_time 45 = amendedC7render 45 :=
  seconds_to_readable_time_amended.1 45

/-- C2 witness: the per-file-indexed description evaluated on the concrete
two-file input. -/
theorem parse_export_data_per_file_indexed_witness :
    parse_export_data filesTwoAnon = parse_export_data_perFile filesTwoAnon :=
  parse_export_data_per_file_indexed filesTwoAnon

end PythonEmbedding
